/-
Verification of the domFD repository: a shallow embedding in Lean 4 of the
employee-record loader (src/EmployeeManager.py) and the PDF manipulation
operations (src/PDFManipulator.py), together with theorems settling the
specification claims about them.

Modelling conventions:
* Python strings are modelled as `List Char` (ASCII-oriented; Unicode digit
  classes and locale behaviour are out of scope).
* Python machine-level library calls (`datetime.strptime`, `int(...)`,
  `str.isdigit`, `calendar.monthrange`) are embedded as Lean functions whose
  definitions follow the documented CPython behaviour on the inputs the
  program can produce.
* Filesystem effects of the PDF operations are embedded as explicit state
  passing over an association-list filesystem `FS`; a raised Python exception
  is an `Except.error` carrying the filesystem state at the raise point.
-/
import Mathlib

set_option autoImplicit false

deriving instance DecidableEq for Except

namespace DomFD

/-! ## Calendar model (datetime.date, calendar.monthrange, Employee._add_months) -/

/-- A Python `datetime.date` triple.  Fields are unconstrained integers; the
`date(...)` constructor's validity check is the separate predicate
`Date.valid`. -/
structure Date where
  year : Int
  month : Int
  day : Int
  deriving DecidableEq, Repr

/-- `calendar.isleap`: Gregorian leap-year rule. -/
def isLeap (y : Int) : Bool :=
  y % 4 = 0 && (y % 100 ≠ 0 || y % 400 = 0)

/-- `calendar.monthrange(y, m)[1]`: number of days in the month (for
`1 ≤ m ≤ 12`; the Python function raises outside that range, and every call
site in the program stays inside it). -/
def daysInMonth (y m : Int) : Int :=
  if m = 2 then (if isLeap y then 29 else 28)
  else if m = 4 ∨ m = 6 ∨ m = 9 ∨ m = 11 then 30
  else 31

/-- Validity check performed by the Python `date(year, month, day)`
constructor (`datetime.MINYEAR = 1`). -/
def Date.valid (d : Date) : Bool :=
  1 ≤ d.year && 1 ≤ d.month && d.month ≤ 12 && 1 ≤ d.day && d.day ≤ daysInMonth d.year d.month

/-- `Employee._add_months(source_date, months)`.  Python `//` and `%` are
floor division and floor modulus, embedded as `Int.fdiv` / `Int.fmod`. -/
def addMonths (d : Date) (months : Int) : Date :=
  let monthIndex : Int := d.month - 1 + months
  let year : Int := d.year + monthIndex.fdiv 12
  let month : Int := monthIndex.fmod 12 + 1
  let day : Int := min d.day (daysInMonth year month)
  ⟨year, month, day⟩

/-- Linearised month count, used to state "adds `n` calendar months". -/
def monthsSinceEpoch (d : Date) : Int :=
  12 * d.year + (d.month - 1)

/-! ## Python string helpers (str.strip, str.lower, str.isdigit, int) -/

/-- Whitespace for `str.strip()` (ASCII fragment). -/
def isPySpace (c : Char) : Bool :=
  c = ' ' ∨ c = '\t' ∨ c = '\n' ∨ c = '\r' ∨ c = '\x0b' ∨ c = '\x0c'

/-- `str.strip()`: drop leading and trailing whitespace. -/
def stripChars (s : List Char) : List Char :=
  ((s.dropWhile isPySpace).reverse.dropWhile isPySpace).reverse

/-- `str.lower()` (ASCII fragment). -/
def lowerStr (s : List Char) : List Char :=
  s.map Char.toLower

/-- Nonempty all-decimal-digit check: the body of `str.isdigit()` on ASCII
strings (`"".isdigit()` is `False`). -/
def isdigitStr (s : List Char) : Bool :=
  !s.isEmpty && s.all Char.isDigit

/-- Decimal value of a digit string. -/
def digitsToNat (s : List Char) : Nat :=
  s.foldl (fun a c => a * 10 + (c.toNat - 48)) 0

/-- `int(s)` on a string: strip whitespace, optional sign, then decimal
digits; `none` models the `ValueError` raise.  (Underscore digit grouping is
not modelled: no `isdigit` string contains an underscore.) -/
def pyIntOfString (s : List Char) : Option Int :=
  match stripChars s with
  | [] => none
  | c :: rest =>
    if c = '+' then
      if isdigitStr rest then some (digitsToNat rest : Int) else none
    else if c = '-' then
      if isdigitStr rest then some (-(digitsToNat rest : Int)) else none
    else
      if isdigitStr (c :: rest) then some (digitsToNat (c :: rest) : Int) else none

/-- Split a char list on a separator character (every occurrence, keeping
empty segments), like `str.split(sep)`. -/
def splitOnChar (sep : Char) : List Char → List (List Char)
  | [] => [[]]
  | c :: rest =>
    let r := splitOnChar sep rest
    if c = sep then [] :: r
    else
      match r with
      | h :: t => (c :: h) :: t
      | [] => [[c]]

/-! ## strptime for the two supported formats

`datetime.strptime(value, "%d/%m/%Y")` / `"%Y-%m-%d"`: CPython's `_strptime`
matches `%d` and `%m` as one or two decimal digits whose value is in range
(no bare `0`/`00`), `%Y` as exactly four decimal digits, the literal
separators in between, and requires the whole string to be consumed; the
resulting `datetime(...)` construction additionally validates the
day-of-month against the month length and the year against `MINYEAR = 1`. -/

/-- Match a 1-or-2-digit field with value in `1..hi` (the `%d` / `%m`
regex classes). -/
def fieldNum (hi : Nat) (s : List Char) : Option Nat :=
  if (s.length = 1 ∨ s.length = 2) ∧ isdigitStr s = true then
    let v := digitsToNat s
    if 1 ≤ v ∧ v ≤ hi then some v else none
  else none

/-- Match an exactly-4-digit year field (the `%Y` regex class). -/
def yearNum (s : List Char) : Option Nat :=
  if s.length = 4 ∧ isdigitStr s = true then some (digitsToNat s) else none

/-- The `datetime(y, m, d)` construction at the end of `strptime`: month
range is already ensured by the field match; day and year are checked. -/
def mkValidDate (y m d : Nat) : Option Date :=
  if 1 ≤ y ∧ (d : Int) ≤ daysInMonth (y : Int) (m : Int) then
    some ⟨(y : Int), (m : Int), (d : Int)⟩
  else none

/-- `datetime.strptime(s, "%d/%m/%Y").date()`, `none` for the caught
`ValueError`. -/
def parseDMY (s : List Char) : Option Date :=
  match splitOnChar '/' s with
  | [ds, ms, ys] =>
    match fieldNum 31 ds, fieldNum 12 ms, yearNum ys with
    | some d, some m, some y => mkValidDate y m d
    | _, _, _ => none
  | _ => none

/-- `datetime.strptime(s, "%Y-%m-%d").date()`, `none` for the caught
`ValueError`. -/
def parseYMD (s : List Char) : Option Date :=
  match splitOnChar '-' s with
  | [ys, ms, ds] =>
    match yearNum ys, fieldNum 12 ms, fieldNum 31 ds with
    | some y, some m, some d => mkValidDate y m d
    | _, _, _ => none
  | _ => none

/-! ## Python cell values

The spreadsheet cells and dataclass fields are dynamically typed; `PyVal`
covers the value shapes the program distinguishes: strings, `datetime.date`,
`datetime.datetime` (a `date` subclass carrying seconds-of-day), integers,
`None` and `NaN`. -/

inductive PyVal where
  | vstr (s : List Char)
  | vdate (d : Date)
  | vdatetime (d : Date) (secs : Nat)
  | vint (n : Int)
  | vnone
  | vnan
  deriving DecidableEq, Repr

/-- `str(value)` for the shapes above (`str(None) = "None"`,
`str(float("nan")) = "nan"`, dates in ISO form). -/
def pad2 (n : Nat) : List Char :=
  if n < 10 then '0' :: (toString n).data else (toString n).data

def pad4 (n : Nat) : List Char :=
  if n < 10 then '0' :: '0' :: '0' :: (toString n).data
  else if n < 100 then '0' :: '0' :: (toString n).data
  else if n < 1000 then '0' :: (toString n).data
  else (toString n).data

def isoDate (d : Date) : List Char :=
  pad4 d.year.toNat ++ '-' :: pad2 d.month.toNat ++ '-' :: pad2 d.day.toNat

def pyStr : PyVal → List Char
  | .vstr s => s
  | .vdate d => isoDate d
  | .vdatetime d secs =>
    isoDate d ++ ' ' :: pad2 (secs / 3600) ++ ':' :: pad2 (secs % 3600 / 60) ++ ':' :: pad2 (secs % 60)
  | .vint n => (toString n).data
  | .vnone => "None".data
  | .vnan => "nan".data

/-- `pandas.isna` on scalars: `True` exactly for `None` and `NaN`. -/
def pyIsNA : PyVal → Bool
  | .vnone => true
  | .vnan => true
  | _ => false

/-- Python truthiness for the shapes above (`bool(float("nan"))` is `True`). -/
def pyTruthy : PyVal → Bool
  | .vstr s => !s.isEmpty
  | .vint n => n ≠ 0
  | .vnone => false
  | _ => true

/-! ## Employee._parse_date and penalty-point coercion -/

/-- `Employee._parse_date`.  The first branch `isinstance(value, date)` is
also satisfied by `datetime` values (Python's `datetime` subclasses `date`),
so datetimes are returned unchanged and the later
`isinstance(value, datetime): return value.date()` branch is unreachable.
Strings are stripped, the empty string gives `None`, then the formats
`%d/%m/%Y` and `%Y-%m-%d` are tried in order; every other shape gives
`None` (modelled as `vnone`). -/
def parse_date : PyVal → PyVal
  | .vdate d => .vdate d
  | .vdatetime d secs => .vdatetime d secs
  | .vstr s =>
    let t := stripChars s
    if t.isEmpty then .vnone
    else
      match parseDMY t with
      | some d => .vdate d
      | none =>
        match parseYMD t with
        | some d => .vdate d
        | none => .vnone
  | _ => .vnone

/-- The `__post_init__` line
`int(self.penalty_points) if str(self.penalty_points).isdigit() else 0`.
When `isdigit` holds the `int(...)` call succeeds and equals the digit
value (see `pyIntOfString_isdigit` below). -/
def coercePenalty (v : PyVal) : Int :=
  if isdigitStr (pyStr v) then (digitsToNat (pyStr v) : Int) else 0

/-! ## Field schema (EmployeeManager.FIELD_ALIASES and the loader) -/

inductive FieldKey where
  | first_name | last_name | phone_number | address | gender
  | date_of_birth | car_reg | penalty_points | car_make | car_model
  | tax_expiry | nct_expiry | insurance_expiry | passport_expiry | license_expiry
  | irp_type | irp_expiry
  deriving DecidableEq, Repr

/-- Alias lists of `EmployeeManager.FIELD_ALIASES` and
`OPTIONAL_FIELD_ALIASES`, in source order. -/
def fieldAliases : FieldKey → List (List Char)
  | .first_name => ["first_name".data, "first name".data]
  | .last_name => ["last_name".data, "last name".data]
  | .phone_number => ["phone_number".data, "phone number".data, "mobile".data]
  | .address => ["address".data]
  | .gender => ["male/female".data, "gender".data, "sex".data]
  | .date_of_birth => ["date_of_birth".data, "date of birth".data, "dob".data]
  | .car_reg => ["car_reg".data, "car reg".data, "registration".data]
  | .penalty_points =>
      ["number_of_penalty_points".data, "number of penalty points".data,
       "penalty points".data, "penalty_points".data]
  | .car_make => ["car_make".data, "car make".data]
  | .car_model => ["car_model".data, "car model".data]
  | .tax_expiry => ["tax_expiry".data, "tax expiry".data]
  | .nct_expiry => ["nct_expiry".data, "nct expiry".data]
  | .insurance_expiry => ["insurance_expiry".data, "insurance expiry".data]
  | .passport_expiry => ["passport_expiry".data, "passport expiry".data]
  | .license_expiry => ["license_expiry".data, "license expiry".data, "licence expiry".data]
  | .irp_type => ["irp_type".data, "irp type".data]
  | .irp_expiry => ["irp_expiry".data, "irp expiry".data]

/-- Iteration order of `FIELD_ALIASES` (Python dict insertion order). -/
def REQUIRED_ORDER : List FieldKey :=
  [.first_name, .last_name, .phone_number, .address, .gender,
   .date_of_birth, .car_reg, .penalty_points, .car_make, .car_model,
   .tax_expiry, .nct_expiry, .insurance_expiry, .passport_expiry, .license_expiry]

/-- Iteration order of `OPTIONAL_FIELD_ALIASES`. -/
def OPTIONAL_ORDER : List FieldKey := [.irp_type, .irp_expiry]

/-- The `raw_data` dict: label → cell value.  Later bindings overwrite
earlier ones, as in the dict comprehension building it. -/
abbrev RawMap := List (List Char × PyVal)

/-- Dict lookup on `RawMap` (last binding wins). -/
def rawLookup (raw : RawMap) (k : List Char) : Option PyVal :=
  raw.foldl (fun acc p => if p.1 = k then some p.2 else acc) none

/-- `EmployeeManager._clean_value`. -/
def cleanValue : PyVal → PyVal
  | .vstr s =>
    let t := stripChars s
    if t.isEmpty then .vnone else .vstr t
  | v => if pyIsNA v then .vnone else v

/-- `EmployeeManager._first_present`: scan the alias list in order; the
first alias whose lowercased form is a key of the raw mapping wins, and its
value is cleaned.  `none` models `found = False`. -/
def firstPresent (raw : RawMap) : List (List Char) → Option PyVal
  | [] => none
  | a :: rest =>
    match rawLookup raw (lowerStr a) with
    | some v => some (cleanValue v)
    | none => firstPresent raw rest

/-- Load-time failures (`ValueError` raises), distinguished by their message
shape: "Missing required field '<aliases>'" and "Field '<field>' is empty". -/
inductive LoadError where
  | missingField (aliases : List (List Char))
  | emptyField (field : FieldKey)
  deriving DecidableEq, Repr

/-- The required-field loop of `EmployeeManager._normalise_fields`: resolve
each field in declaration order, failing at the first field none of whose
aliases is present. -/
def resolveLoop (raw : RawMap) : List FieldKey → Except LoadError (List (FieldKey × PyVal))
  | [] => .ok []
  | k :: ks =>
    match firstPresent raw (fieldAliases k) with
    | none => .error (.missingField (fieldAliases k))
    | some v =>
      match resolveLoop raw ks with
      | .error e => .error e
      | .ok rest => .ok ((k, v) :: rest)

/-- The optional-field loop of `_normalise_fields`: absence stores `None`. -/
def resolveOptional (raw : RawMap) : List (FieldKey × PyVal) :=
  OPTIONAL_ORDER.map (fun k => (k, (firstPresent raw (fieldAliases k)).getD .vnone))

/-- `data.get(field)` on the normalised dict (`None` when absent). -/
def getField : List (FieldKey × PyVal) → FieldKey → PyVal
  | [], _ => .vnone
  | e :: rest, k => if e.1 = k then e.2 else getField rest k

/-- `EmployeeManager._is_missing`. -/
def isMissingB : PyVal → Bool
  | .vnone => true
  | .vstr s => (stripChars s).isEmpty
  | v => pyIsNA v

/-- `EmployeeManager._validate_required`: raise at the first required field
whose value is missing. -/
def validateLoop (data : List (FieldKey × PyVal)) : List FieldKey → Except LoadError Unit
  | [] => .ok ()
  | k :: ks =>
    if isMissingB (getField data k) then .error (.emptyField k)
    else validateLoop data ks

/-- The `Employee` dataclass after `__post_init__` ran.  Fields the
constructor does not touch keep their raw `PyVal`; date fields hold whatever
`_parse_date` returned; `penalty_points` holds the `int(...)`-or-`0`
coercion result. -/
structure Employee where
  first_name : PyVal
  last_name : PyVal
  phone_number : PyVal
  address : PyVal
  gender : PyVal
  date_of_birth : PyVal
  car_reg : PyVal
  penalty_points : Int
  car_make : PyVal
  car_model : PyVal
  tax_expiry : PyVal
  nct_expiry : PyVal
  insurance_expiry : PyVal
  passport_expiry : PyVal
  license_expiry : PyVal
  irp_type : PyVal
  irp_expiry : PyVal
  deriving DecidableEq, Repr

/-- `Employee(**normalised)` followed by `__post_init__`. -/
def mkEmployee (data : List (FieldKey × PyVal)) : Employee :=
  { first_name := getField data .first_name
    last_name := getField data .last_name
    phone_number := getField data .phone_number
    address := getField data .address
    gender := getField data .gender
    date_of_birth := parse_date (getField data .date_of_birth)
    car_reg := getField data .car_reg
    penalty_points := coercePenalty (getField data .penalty_points)
    car_make := getField data .car_make
    car_model := getField data .car_model
    tax_expiry := parse_date (getField data .tax_expiry)
    nct_expiry := parse_date (getField data .nct_expiry)
    insurance_expiry := parse_date (getField data .insurance_expiry)
    passport_expiry := parse_date (getField data .passport_expiry)
    license_expiry := parse_date (getField data .license_expiry)
    irp_type :=
      (let v := getField data .irp_type
       if pyTruthy v then v else .vnone)
    irp_expiry := parse_date (getField data .irp_expiry) }

/-- `EmployeeManager.load_employee`, starting from the `raw_data` mapping:
`_normalise_fields` (required loop, then optional loop appending to the same
dict), `_validate_required`, then `Employee(**normalised)`. -/
def loadEmployee (raw : RawMap) : Except LoadError Employee :=
  match resolveLoop raw REQUIRED_ORDER with
  | .error e => .error e
  | .ok req =>
    let data := req ++ resolveOptional raw
    match validateLoop data REQUIRED_ORDER with
    | .error e => .error e
    | .ok _ => .ok (mkEmployee data)

/-- `Employee.calculate_pp_expiry`. -/
def calculate_pp_expiry (e : Employee) (reference_date : Date) : Date :=
  let months_to_add : Int := if e.penalty_points = 0 then 3 else 1
  addMonths reference_date months_to_add

/-! ## PDF model (src/PDFManipulator.py)

PDF documents are sequences of pages; a page carries its `/Annots` list
(Python's falsy test conflates a missing and an empty list, so an empty
list models both).  The filesystem is an association list from paths to
file contents; a write failure leaves a `truncated` entry at the target
path, modelling a half-written file. -/

structure Annot where
  /-- The `/T` field-title entry (`none` when absent). -/
  t : Option (List Char)
  /-- The `/MK` appearance dictionary's `/CA` caption (`none` when the
  dictionary or caption is absent). -/
  mkCA : Option (List Char)
  /-- The `/V` value entry. -/
  v : Option (List Char)
  deriving DecidableEq, Repr

structure Page where
  annots : List Annot
  deriving DecidableEq, Repr

structure PdfDoc where
  pages : List Page
  /-- Whether `/AcroForm` is present in the document root. -/
  acroform : Bool
  deriving DecidableEq, Repr

inductive FileContent where
  /-- A well-formed PDF file (readable by `PdfReader`). -/
  | pdf (doc : PdfDoc)
  /-- A raster image file (readable by `Image.open`). -/
  | image (id : Nat)
  /-- A half-written file left by a failed `writer.write`. -/
  | truncated
  deriving DecidableEq, Repr

abbrev FS := List (List Char × FileContent)

def fsGet : FS → List Char → Option FileContent
  | [], _ => none
  | e :: rest, p => if e.1 = p then some e.2 else fsGet rest p

/-- Delete the entry at a path (`os.remove`). -/
def fsRemove : FS → List Char → FS
  | [], _ => []
  | e :: rest, p => if e.1 = p then fsRemove rest p else e :: fsRemove rest p

/-- Create or overwrite the file at a path. -/
def fsSet (fs : FS) (p : List Char) (c : FileContent) : FS :=
  (p, c) :: fsRemove fs p

/-- `PdfReader(path)`: succeeds on a well-formed PDF, raises otherwise
(missing file, image bytes, truncated bytes). -/
def readPdf (fs : FS) (p : List Char) : Option PdfDoc :=
  match fsGet fs p with
  | some (.pdf doc) => some doc
  | _ => none

/-- The manipulator's configuration (`self.output_dir`) and the behaviour of
the output write: `writeOk = false` models `writer.write` raising midway. -/
structure Env where
  outputDir : List Char
  writeOk : Bool

/-- `os.path.join(dir, name)` for a relative name. -/
def joinPath (dir name : List Char) : List Char :=
  dir ++ '/' :: name

/-- `os.path.basename`. -/
def baseName (p : List Char) : List Char :=
  (p.reverse.takeWhile (fun c => ¬ c = '/')).reverse

/-- `os.path.splitext(p)[1].lower()`: the extension from the last dot of the
basename, where leading dots of the basename do not start an extension. -/
def extOf (p : List Char) : List Char :=
  let b := baseName p
  let core := b.dropWhile (fun c => c = '.')
  if core.contains '.' then
    lowerStr ('.' :: (core.reverse.takeWhile (fun c => ¬ c = '.')).reverse)
  else []

def imageExts : List (List Char) :=
  [".jpg".data, ".jpeg".data, ".png".data, ".bmp".data, ".tiff".data]

/-- The single page produced by saving a raster image as a PDF (no
annotations). -/
def imagePage : Page := ⟨[]⟩

/-- `open(pdf_path, "wb"); writer.write(f)`: on success the document lands
at the path; on failure the exception propagates and a half-written file is
left at the path. -/
def writeOut (env : Env) (fs : FS) (path : List Char) (doc : PdfDoc) :
    Except Unit (List Char) × FS :=
  if env.writeOk then (.ok path, fsSet fs path (.pdf doc))
  else (.error (), fsSet fs path .truncated)

/-! ### fill_pdf_form -/

/-- `key.strip("()")`. -/
def stripParens (s : List Char) : List Char :=
  ((s.dropWhile (fun c => c = '(' ∨ c = ')')).reverse.dropWhile
    (fun c => c = '(' ∨ c = ')')).reverse

/-- Field-name resolution for one annotation: the `/T` title if truthy, else
the `/MK`/`/CA` caption stripped of parentheses if truthy, else none
(`continue`). -/
def annotKey (a : Annot) : Option (List Char) :=
  let fromT : Option (List Char) :=
    match a.t with
    | some s => if s.isEmpty then none else some s
    | none => none
  match fromT with
  | some k => some k
  | none =>
    match a.mkCA with
    | some cap =>
      let k := stripParens cap
      if k.isEmpty then none else some k
    | none => none

/-- Dict lookup for the fill values (`data_dict`). -/
def dictGet (d : List (List Char × List Char)) (k : List Char) : Option (List Char) :=
  d.foldl (fun acc p => if p.1 = k then some p.2 else acc) none

/-- Value lookup: exact key first; else, when the key contains a `#`
deduplication suffix, the part before the first `#`. -/
def lookupValue (d : List (List Char × List Char)) (key : List Char) : Option (List Char) :=
  match dictGet d key with
  | some v => some v
  | none =>
    if key.contains '#' then dictGet d (key.takeWhile (fun c => ¬ c = '#'))
    else none

/-- The annotation update of the inner loop: set `/V` when a value was
found, leave the annotation untouched otherwise. -/
def fillAnnot (d : List (List Char × List Char)) (a : Annot) : Annot :=
  match annotKey a with
  | none => a
  | some k =>
    match lookupValue d k with
    | none => a
    | some v => { a with v := some v }

def fillPage (d : List (List Char × List Char)) (p : Page) : Page :=
  ⟨p.annots.map (fillAnnot d)⟩

/-- `PDFManipulator.fill_pdf_form`.  The page loop skips a page with a falsy
`/Annots` entry by `continue` before reaching `writer.add_page`, so only
pages with a nonempty annotation list are added to the output. -/
def fill_pdf_form (env : Env) (fs : FS) (template_path : List Char)
    (data_dict : List (List Char × List Char)) (output_name : List Char) :
    Except Unit (List Char) × FS :=
  let pdf_path := joinPath env.outputDir output_name
  match readPdf fs template_path with
  | none => (.error (), fs)
  | some doc =>
    let outPages := (doc.pages.filter (fun p => !p.annots.isEmpty)).map (fillPage data_dict)
    writeOut env fs pdf_path ⟨outPages, doc.acroform⟩

/-! ### merge_pdfs -/

/-- The reader loop of `merge_pdfs`: read each path in order, concatenating
pages; the first unreadable path raises. -/
def readAllPages (fs : FS) : List (List Char) → Option (List Page)
  | [] => some []
  | p :: ps =>
    match readPdf fs p with
    | none => none
    | some doc =>
      match readAllPages fs ps with
      | none => none
      | some rest => some (doc.pages ++ rest)

/-- `PDFManipulator.merge_pdfs`. -/
def merge_pdfs (env : Env) (fs : FS) (pdf_paths : List (List Char))
    (output_name : List Char) : Except Unit (List Char) × FS :=
  let pdf_path := joinPath env.outputDir output_name
  match readAllPages fs pdf_paths with
  | none => (.error (), fs)
  | some pages => writeOut env fs pdf_path ⟨pages, false⟩

/-! ### combine_files -/

/-- The transient path `os.path.join(output_dir, f"_temp_{basename}.pdf")`. -/
def tempName (env : Env) (p : List Char) : List Char :=
  joinPath env.outputDir ("_temp_".data ++ baseName p ++ ".pdf".data)

/-- The per-input loop of `combine_files`, threading the accumulated
transient-file list, the writer's pages and the filesystem.  An `error`
result is a raised exception (unreadable image or PDF) carrying the
filesystem at the raise point — the cleanup loop further down the function
is never reached on that path. -/
def combineLoop (env : Env) :
    List (List Char) → List (List Char) → List Page → FS →
    Except FS (List (List Char) × List Page × FS)
  | [], temps, writerPages, fs => .ok (temps, writerPages, fs)
  | path :: rest, temps, writerPages, fs =>
    let ext := extOf path
    if ext ∈ imageExts then
      match fsGet fs path with
      | some (.image _) =>
        let temp := tempName env path
        let fs' := fsSet fs temp (.pdf ⟨[imagePage], false⟩)
        combineLoop env rest (temps ++ [temp]) (writerPages ++ [imagePage]) fs'
      | _ => .error fs
    else if ext = ".pdf".data then
      match readPdf fs path with
      | some doc => combineLoop env rest temps (writerPages ++ doc.pages) fs
      | none => .error fs
    else
      combineLoop env rest temps writerPages fs

/-- `PDFManipulator.combine_files`: run the loop, write the output, then —
only when both succeeded — delete the transient files. -/
def combine_files (env : Env) (fs : FS) (file_paths : List (List Char))
    (output_name : List Char) : Except Unit (List Char) × FS :=
  let pdf_path := joinPath env.outputDir output_name
  match combineLoop env file_paths [] [] fs with
  | .error fsErr => (.error (), fsErr)
  | .ok (temps, pages, fs') =>
    if env.writeOk then
      let fs2 := fsSet fs' pdf_path (.pdf ⟨pages, false⟩)
      (.ok pdf_path, temps.foldl fsRemove fs2)
    else
      (.error (), fsSet fs' pdf_path .truncated)

/-! ## Claim-statement predicates and concrete scenario inputs -/

/-- The invariant claimed for post-construction date fields: a canonical
date value or the absent sentinel (claim C10's wording). -/
def claimedDateFieldInvariant : PyVal → Bool
  | .vdate _ => true
  | .vnone => true
  | _ => false

/-- What the date fields actually range over after `__post_init__`: a date,
a datetime passed through unchanged, or the absent sentinel. -/
def dateLike : PyVal → Bool
  | .vdate _ => true
  | .vdatetime _ _ => true
  | .vnone => true
  | _ => false

/-- All seven parsed date fields of a record are `dateLike`. -/
def dateFieldsDateLike (e : Employee) : Bool :=
  dateLike e.date_of_birth && dateLike e.tax_expiry && dateLike e.nct_expiry &&
  dateLike e.insurance_expiry && dateLike e.passport_expiry &&
  dateLike e.license_expiry && dateLike e.irp_expiry

/-- A cell value that is a non-blank string matching neither supported date
format (the inputs claim C4 quantifies over). -/
def unparseableNonblankStr : PyVal → Bool
  | .vstr s =>
    !(stripChars s).isEmpty && (parseDMY (stripChars s)).isNone &&
      (parseYMD (stripChars s)).isNone
  | _ => false

/-- A raw mapping covering every required field (used as a concrete base for
counterexamples and witnesses). -/
def rawBase : RawMap :=
  [("first name".data, .vstr "Jo".data), ("last_name".data, .vstr "Smith".data),
   ("mobile".data, .vstr "087".data), ("address".data, .vstr "Main St".data),
   ("gender".data, .vstr "male".data), ("dob".data, .vstr "01/02/1990".data),
   ("car reg".data, .vstr "12D34567".data), ("penalty points".data, .vstr "3".data),
   ("car make".data, .vstr "Ford".data), ("car model".data, .vstr "Focus".data),
   ("tax expiry".data, .vstr "soonish".data), ("nct expiry".data, .vstr "tbc".data),
   ("insurance expiry".data, .vstr "pending".data), ("passport expiry".data, .vstr "??".data),
   ("license expiry".data, .vstr "tbd".data)]

/-- `rawBase` extended with an IRP expiry cell holding a datetime with a
time-of-day component (15:30:00 = 55800 seconds). -/
def c10Raw : RawMap :=
  rawBase ++ [("irp expiry".data, .vdatetime ⟨2024, 1, 2⟩ 55800)]

/-- A two-page fillable template whose second page has no annotations. -/
def c1Template : PdfDoc :=
  ⟨[⟨[⟨some "employee_name".data, none, none⟩]⟩, ⟨[]⟩], true⟩

def c1FS : FS := [("tpl.pdf".data, .pdf c1Template)]

def defaultEnv : Env := ⟨"output_pdfs".data, true⟩

def failWriteEnv : Env := ⟨"output_pdfs".data, false⟩

/-- A filesystem holding one raster image and one readable PDF. -/
def combineFS : FS :=
  [("img.jpg".data, .image 0), ("doc.pdf".data, .pdf ⟨[⟨[]⟩], false⟩)]

/-- A filesystem holding only the raster image (so reading `doc.pdf` later
raises). -/
def combineFSNoDoc : FS := [("img.jpg".data, .image 0)]

/-- The five required expiry fields of claim C4. -/
def expiryKeys : List FieldKey :=
  [.tax_expiry, .nct_expiry, .insurance_expiry, .passport_expiry, .license_expiry]

/-- All five expiry fields of a record hold the absent sentinel. -/
def expiryFieldsAbsent (e : Employee) : Bool :=
  e.tax_expiry = PyVal.vnone && e.nct_expiry = PyVal.vnone &&
  e.insurance_expiry = PyVal.vnone && e.passport_expiry = PyVal.vnone &&
  e.license_expiry = PyVal.vnone

/-- `rawBase` with the gender row removed (no alias of `gender` present). -/
def rawNoGender : RawMap :=
  rawBase.filter (fun p => ¬ p.1 = "gender".data)

/-- `rawBase` with a later row overwriting the tax-expiry cell with a blank
string (alias present, cleaned value absent). -/
def rawBlankTax : RawMap :=
  rawBase ++ [("tax expiry".data, .vstr "   ".data)]

end DomFD

namespace DomFD

/-! ## Helper lemmas -/

theorem fmod_twelve_nonneg (a : Int) : 0 ≤ a.fmod 12 := by
  rw [Int.fmod_eq_emod _ (by norm_num)]
  exact Int.emod_nonneg a (by norm_num)

theorem fmod_twelve_lt (a : Int) : a.fmod 12 < 12 := by
  rw [Int.fmod_eq_emod _ (by norm_num)]
  exact Int.emod_lt_of_pos a (by norm_num)

theorem monthsSinceEpoch_addMonths (d : Date) (n : Int) :
    monthsSinceEpoch (addMonths d n) = monthsSinceEpoch d + n := by
  have h := Int.fmod_add_fdiv (d.month - 1 + n) 12
  simp only [monthsSinceEpoch, addMonths]
  omega

theorem addMonths_month_range (d : Date) (n : Int) :
    1 ≤ (addMonths d n).month ∧ (addMonths d n).month ≤ 12 := by
  have h0 := fmod_twelve_nonneg (d.month - 1 + n)
  have h1 := fmod_twelve_lt (d.month - 1 + n)
  simp only [addMonths]
  omega

theorem coercePenalty_nonneg (v : PyVal) : 0 ≤ coercePenalty v := by
  unfold coercePenalty
  split
  · exact Int.natCast_nonneg _
  · exact le_refl 0

theorem digit_not_space {c : Char} (h : c.isDigit = true) : isPySpace c = false := by
  cases hsp : isPySpace c
  · rfl
  · exfalso
    have hc : c = ' ' ∨ c = '\t' ∨ c = '\n' ∨ c = '\r' ∨ c = '\x0b' ∨ c = '\x0c' := by
      simpa [isPySpace, or_assoc] using hsp
    rcases hc with e | e | e | e | e | e <;> rw [e] at h <;> exact absurd h (by decide)

theorem dropWhile_eq_self_of {p : Char → Bool} {l : List Char}
    (h : ∀ c ∈ l, p c = false) : l.dropWhile p = l := by
  cases l with
  | nil => rfl
  | cons a t => simp [List.dropWhile_cons, h a (List.mem_cons_self a t)]

theorem stripChars_eq_self {s : List Char}
    (h : ∀ c ∈ s, isPySpace c = false) : stripChars s = s := by
  unfold stripChars
  rw [dropWhile_eq_self_of h,
    dropWhile_eq_self_of (fun c hc => h c (List.mem_reverse.mp hc)),
    List.reverse_reverse]

theorem pyIntOfString_isdigit {s : List Char} (h : isdigitStr s = true) :
    pyIntOfString s = some (digitsToNat s : Int) := by
  have hne : s.isEmpty = false := by
    rcases Bool.and_eq_true .. |>.mp h with ⟨h1, _⟩
    simpa using h1
  have hall : ∀ c ∈ s, c.isDigit = true := by
    rcases Bool.and_eq_true .. |>.mp h with ⟨_, h2⟩
    exact fun c hc => List.all_eq_true.mp h2 c hc
  have hstrip : stripChars s = s :=
    stripChars_eq_self (fun c hc => digit_not_space (hall c hc))
  cases s with
  | nil => simp at hne
  | cons c cs =>
    have hd : c.isDigit = true := hall c (List.mem_cons_self c cs)
    have h1 : ¬ c = '+' := by
      intro e
      rw [e] at hd
      exact absurd hd (by decide)
    have h2 : ¬ c = '-' := by
      intro e
      rw [e] at hd
      exact absurd hd (by decide)
    unfold pyIntOfString
    rw [hstrip]
    simp [h1, h2, h]

theorem dateLike_parse_date (v : PyVal) : dateLike (parse_date v) = true := by
  cases v with
  | vstr s =>
    unfold parse_date
    dsimp only
    split
    · rfl
    · split
      · rfl
      · split <;> rfl
  | vdate d => rfl
  | vdatetime d secs => rfl
  | vint n => rfl
  | vnone => rfl
  | vnan => rfl

theorem fsGet_fsSet_self (fs : FS) (p : List Char) (c : FileContent) :
    fsGet (fsSet fs p c) p = some c := by
  simp [fsSet, fsGet]

theorem fsGet_fsRemove (fs : FS) (x t : List Char) :
    fsGet (fsRemove fs x) t = if t = x then none else fsGet fs t := by
  induction fs with
  | nil => simp [fsRemove, fsGet]
  | cons e rest ih =>
    by_cases hex : e.1 = x
    · have hrm : fsRemove (e :: rest) x = fsRemove rest x := by
        simp [fsRemove, hex]
      by_cases htx : t = x
      · subst htx
        rw [hrm, if_pos rfl]
        simpa using ih
      · have hxt : ¬ x = t := fun h => htx h.symm
        have hget : fsGet (e :: rest) t = fsGet rest t := by
          simp [fsGet, hex, hxt]
        rw [hrm, ih]
        simp [htx, hget]
    · have hrm : fsRemove (e :: rest) x = e :: fsRemove rest x := by
        simp [fsRemove, hex]
      by_cases het : e.1 = t
      · have htx : ¬ t = x := fun h => hex (het.trans h)
        rw [hrm]
        simp [fsGet, het, htx]
      · rw [hrm]
        simp [fsGet, het, ih]

theorem fsGet_foldl_remove_none (l : List (List Char)) (fs : FS) (t : List Char)
    (h : fsGet fs t = none) : fsGet (l.foldl fsRemove fs) t = none := by
  induction l generalizing fs with
  | nil => simpa using h
  | cons a l' ih =>
    rw [List.foldl_cons]
    refine ih _ ?_
    rw [fsGet_fsRemove]
    split
    · rfl
    · exact h

theorem fsGet_foldl_remove_mem (l : List (List Char)) (fs : FS) (t : List Char)
    (h : t ∈ l) : fsGet (l.foldl fsRemove fs) t = none := by
  induction l generalizing fs with
  | nil => simp at h
  | cons a l' ih =>
    rw [List.foldl_cons]
    by_cases hta : t = a
    · refine fsGet_foldl_remove_none _ _ _ ?_
      rw [fsGet_fsRemove]
      simp [hta]
    · exact ih _ (by rcases List.mem_cons.mp h with h | h; exact absurd h hta; exact h)

theorem combineLoop_temps_subset (env : Env) (paths : List (List Char)) :
    ∀ (temps0 : List (List Char)) (w : List Page) (fs : FS)
      (temps : List (List Char)) (pages : List Page) (fs' : FS),
      combineLoop env paths temps0 w fs = .ok (temps, pages, fs') →
      ∀ t ∈ temps0, t ∈ temps := by
  induction paths with
  | nil =>
    intro temps0 w fs temps pages fs' h t ht
    rw [combineLoop] at h
    cases h
    exact ht
  | cons q rest ih =>
    intro temps0 w fs temps pages fs' h t ht
    rw [combineLoop] at h
    by_cases himg : extOf q ∈ imageExts
    · rw [if_pos himg] at h
      cases hget : fsGet fs q with
      | none => rw [hget] at h; cases h
      | some c =>
        rw [hget] at h
        cases c with
        | image i =>
          exact ih _ _ _ _ _ _ h t (List.mem_append_left _ ht)
        | pdf doc => cases h
        | truncated => cases h
    · rw [if_neg himg] at h
      by_cases hpdf : extOf q = ".pdf".data
      · rw [if_pos hpdf] at h
        cases hrd : readPdf fs q with
        | none => rw [hrd] at h; cases h
        | some doc =>
          rw [hrd] at h
          exact ih _ _ _ _ _ _ h t ht
      · rw [if_neg hpdf] at h
        exact ih _ _ _ _ _ _ h t ht

theorem combineLoop_temps_mem (env : Env) (paths : List (List Char)) :
    ∀ (temps0 : List (List Char)) (w : List Page) (fs : FS)
      (temps : List (List Char)) (pages : List Page) (fs' : FS),
      combineLoop env paths temps0 w fs = .ok (temps, pages, fs') →
      ∀ p ∈ paths, extOf p ∈ imageExts → tempName env p ∈ temps := by
  induction paths with
  | nil =>
    intro temps0 w fs temps pages fs' h p hp
    simp at hp
  | cons q rest ih =>
    intro temps0 w fs temps pages fs' h p hp himg
    rw [combineLoop] at h
    rcases List.mem_cons.mp hp with hpq | hpr
    · subst hpq
      rw [if_pos himg] at h
      cases hget : fsGet fs p with
      | none => rw [hget] at h; cases h
      | some c =>
        rw [hget] at h
        cases c with
        | image i =>
          refine combineLoop_temps_subset env rest _ _ _ _ _ _ h _ ?_
          exact List.mem_append_right _ (List.mem_singleton.mpr rfl)
        | pdf doc => cases h
        | truncated => cases h
    · by_cases himgq : extOf q ∈ imageExts
      · rw [if_pos himgq] at h
        cases hget : fsGet fs q with
        | none => rw [hget] at h; cases h
        | some c =>
          rw [hget] at h
          cases c with
          | image i => exact ih _ _ _ _ _ _ h p hpr himg
          | pdf doc => cases h
          | truncated => cases h
      · rw [if_neg himgq] at h
        by_cases hpdf : extOf q = ".pdf".data
        · rw [if_pos hpdf] at h
          cases hrd : readPdf fs q with
          | none => rw [hrd] at h; cases h
          | some doc =>
            rw [hrd] at h
            exact ih _ _ _ _ _ _ h p hpr himg
        · rw [if_neg hpdf] at h
          exact ih _ _ _ _ _ _ h p hpr himg

theorem find?_cons_true {α : Type} {p : α → Bool} {a : α} {l : List α}
    (h : p a = true) : (a :: l).find? p = some a := by
  simp [List.find?_cons, h]

theorem find?_cons_false {α : Type} {p : α → Bool} {a : α} {l : List α}
    (h : p a = false) : (a :: l).find? p = l.find? p := by
  simp [List.find?_cons, h]

theorem find?_congr_mem {α : Type} {p q : α → Bool} {l : List α}
    (h : ∀ a ∈ l, p a = q a) : l.find? p = l.find? q := by
  induction l with
  | nil => rfl
  | cons a rest ih =>
    by_cases hpa : p a = true
    · rw [find?_cons_true hpa,
        find?_cons_true (by rw [← h a (List.mem_cons_self a rest)]; exact hpa)]
    · rw [find?_cons_false (by simpa using hpa),
        find?_cons_false (by rw [← h a (List.mem_cons_self a rest)]; simpa using hpa)]
      exact ih (fun b hb => h b (List.mem_cons_of_mem a hb))

theorem resolveLoop_first_missing (raw : RawMap) (ks : List FieldKey) (k : FieldKey)
    (h : ks.find? (fun j => (firstPresent raw (fieldAliases j)).isNone) = some k) :
    resolveLoop raw ks = .error (.missingField (fieldAliases k)) := by
  induction ks with
  | nil => simp at h
  | cons a rest ih =>
    by_cases ha : (firstPresent raw (fieldAliases a)).isNone = true
    · rw [@find?_cons_true FieldKey
        (fun j => (firstPresent raw (fieldAliases j)).isNone) a rest ha] at h
      cases h
      rw [resolveLoop, Option.isNone_iff_eq_none.mp ha]
    · have ha' : (firstPresent raw (fieldAliases a)).isNone = false := by
        rw [Bool.not_eq_true] at ha
        exact ha
      rw [@find?_cons_false FieldKey
        (fun j => (firstPresent raw (fieldAliases j)).isNone) a rest ha'] at h
      cases hfp : firstPresent raw (fieldAliases a) with
      | none => rw [hfp] at ha'; simp at ha'
      | some v => rw [resolveLoop, hfp, ih h]

theorem resolveLoop_ok_of_present (raw : RawMap) (ks : List FieldKey)
    (h : ∀ k ∈ ks, (firstPresent raw (fieldAliases k)).isSome = true) :
    ∃ data, resolveLoop raw ks = .ok data := by
  induction ks with
  | nil => exact ⟨[], rfl⟩
  | cons a rest ih =>
    obtain ⟨v, hv⟩ := Option.isSome_iff_exists.mp (h a (List.mem_cons_self a rest))
    obtain ⟨data, hd⟩ := ih (fun k hk => h k (List.mem_cons_of_mem a hk))
    exact ⟨(a, v) :: data, by rw [resolveLoop, hv, hd]⟩

theorem resolveLoop_ok_getField (raw : RawMap) (ks : List FieldKey) :
    ∀ data : List (FieldKey × PyVal), resolveLoop raw ks = .ok data →
      ∀ k ∈ ks, ∀ suffix : List (FieldKey × PyVal),
        getField (data ++ suffix) k = (firstPresent raw (fieldAliases k)).getD .vnone := by
  induction ks with
  | nil =>
    intro data h k hk
    simp at hk
  | cons a rest ih =>
    intro data h k hk suffix
    rw [resolveLoop] at h
    cases hfp : firstPresent raw (fieldAliases a) with
    | none =>
      rw [hfp] at h
      cases h
    | some v =>
      rw [hfp] at h
      cases hrl : resolveLoop raw rest with
      | error e =>
        rw [hrl] at h
        cases h
      | ok rest' =>
        rw [hrl] at h
        cases h
        rcases List.mem_cons.mp hk with hka | hkr
        · subst hka
          simp [getField, hfp]
        · by_cases hak : a = k
          · subst hak
            simp [getField, hfp]
          · have hstep : getField (((a, v) :: rest') ++ suffix) k =
                getField (rest' ++ suffix) k := by
              simp [getField, hak]
            rw [hstep]
            exact ih rest' hrl k hkr suffix

theorem validateLoop_ok_of (data : List (FieldKey × PyVal)) (ks : List FieldKey)
    (h : ∀ k ∈ ks, isMissingB (getField data k) = false) :
    validateLoop data ks = .ok () := by
  induction ks with
  | nil => rfl
  | cons a rest ih =>
    simp only [validateLoop, h a (List.mem_cons_self a rest), Bool.false_eq_true, if_false]
    exact ih (fun k hk => h k (List.mem_cons_of_mem a hk))

theorem validateLoop_first_missing (data : List (FieldKey × PyVal))
    (ks : List FieldKey) (k : FieldKey)
    (h : ks.find? (fun j => isMissingB (getField data j)) = some k) :
    validateLoop data ks = .error (.emptyField k) := by
  induction ks with
  | nil => simp at h
  | cons a rest ih =>
    by_cases ha : isMissingB (getField data a) = true
    · rw [@find?_cons_true FieldKey
        (fun j => isMissingB (getField data j)) a rest ha] at h
      cases h
      simp [validateLoop, ha]
    · have ha' : isMissingB (getField data a) = false := by
        rw [Bool.not_eq_true] at ha
        exact ha
      rw [@find?_cons_false FieldKey
        (fun j => isMissingB (getField data j)) a rest ha'] at h
      simp [validateLoop, ha', ih h]

theorem parse_date_unparseable {v : PyVal} (h : unparseableNonblankStr v = true) :
    parse_date v = .vnone := by
  cases v with
  | vstr s =>
    simp only [unparseableNonblankStr, Bool.and_eq_true, Bool.not_eq_true',
      Option.isNone_iff_eq_none] at h
    obtain ⟨⟨h1, h2⟩, h3⟩ := h
    unfold parse_date
    dsimp only
    rw [if_neg (by simp [h1]), h2, h3]
  | vdate d => simp [unparseableNonblankStr] at h
  | vdatetime d secs => simp [unparseableNonblankStr] at h
  | vint n => simp [unparseableNonblankStr] at h
  | vnone => simp [unparseableNonblankStr] at h
  | vnan => simp [unparseableNonblankStr] at h

/-! ## Claim theorems -/

/-- Claim C8: `_add_months` adds calendar months — the linearised month
count advances by exactly `months` and the resulting month stays in
`1..12` — while the day-of-month is the source day clamped to the last
valid day of the resulting month; in particular Jan 31 2024 + 1 month is
Feb 29 2024 and Jan 31 2023 + 1 month is Feb 28 2023. -/
theorem add_months_adds_calendar_months (d : Date) (n : Int) :
    monthsSinceEpoch (addMonths d n) = monthsSinceEpoch d + n ∧
    (addMonths d n).day = min d.day (daysInMonth (addMonths d n).year (addMonths d n).month) ∧
    1 ≤ (addMonths d n).month ∧ (addMonths d n).month ≤ 12 ∧
    addMonths ⟨2024, 1, 31⟩ 1 = ⟨2024, 2, 29⟩ ∧
    addMonths ⟨2023, 1, 31⟩ 1 = ⟨2023, 2, 28⟩ := by
  refine ⟨monthsSinceEpoch_addMonths d n, rfl, (addMonths_month_range d n).1,
    (addMonths_month_range d n).2, by decide, by decide⟩

/-- Claim C9: `calculate_pp_expiry` is `_add_months` applied to the
reference date with 3 months when `penalty_points = 0` and 1 month
otherwise, so the result is the reference date advanced by exactly that
many calendar months. -/
theorem calculate_pp_expiry_spec (e : Employee) (ref : Date) :
    calculate_pp_expiry e ref = addMonths ref (if e.penalty_points = 0 then 3 else 1) ∧
    monthsSinceEpoch (calculate_pp_expiry e ref) =
      monthsSinceEpoch ref + (if e.penalty_points = 0 then 3 else 1) := by
  refine ⟨rfl, ?_⟩
  show monthsSinceEpoch (addMonths ref _) = _
  rw [monthsSinceEpoch_addMonths]

/-- Claim C5: the penalty-point coercion
`int(str(v)) if str(v).isdigit() else 0` never raises (the guarded
`int(...)` call, modelled with its `ValueError` as `pyIntOfString`, always
returns the coerced value), its result is an integer that is at least 0,
and concretely "3" coerces to 3 while "abc", a blank cell (`None`) and a
NaN cell coerce to 0. -/
theorem penalty_points_coercion_total_nonneg (v : PyVal) :
    (if isdigitStr (pyStr v) then pyIntOfString (pyStr v) else some 0) =
      some (coercePenalty v) ∧
    0 ≤ coercePenalty v ∧
    coercePenalty (.vstr "3".data) = 3 ∧
    coercePenalty (.vstr "abc".data) = 0 ∧
    coercePenalty .vnone = 0 ∧
    coercePenalty .vnan = 0 := by
  refine ⟨?_, coercePenalty_nonneg v, by decide, by decide, by decide, by decide⟩
  by_cases h : isdigitStr (pyStr v) = true
  · rw [if_pos h, pyIntOfString_isdigit h, coercePenalty, if_pos h]
  · rw [if_neg h, coercePenalty, if_neg h]

/-- Claim C7 (failing input): a `datetime` cell value is returned by
`_parse_date` unchanged, with its time-of-day intact, instead of being
truncated to a date: Python's `datetime` is a subclass of `date`, so the
first `isinstance(value, date)` branch returns it and the truncating
`isinstance(value, datetime)` branch is unreachable. -/
theorem parse_date_does_not_truncate_datetime :
    parse_date (.vdatetime ⟨2024, 1, 2⟩ 55800) = .vdatetime ⟨2024, 1, 2⟩ 55800 ∧
    ¬ parse_date (.vdatetime ⟨2024, 1, 2⟩ 55800) = .vdate ⟨2024, 1, 2⟩ := by
  exact ⟨rfl, by decide⟩

/-- Claim C1 (failing input): filling a two-page template whose second page
has no annotations produces a one-page output — the annotation-free page is
skipped by the `continue` before `writer.add_page` and is dropped from the
output instead of being passed through. -/
theorem fill_pdf_form_drops_annotation_free_page :
    c1Template.pages.length = 2 ∧
    (fill_pdf_form defaultEnv c1FS "tpl.pdf".data
        [("employee_name".data, "Jo Smith".data)] "filled_form.pdf".data).1 =
      .ok "output_pdfs/filled_form.pdf".data ∧
    readPdf (fill_pdf_form defaultEnv c1FS "tpl.pdf".data
        [("employee_name".data, "Jo Smith".data)] "filled_form.pdf".data).2
        "output_pdfs/filled_form.pdf".data =
      some ⟨[⟨[⟨some "employee_name".data, none, some "Jo Smith".data⟩]⟩], true⟩ := by
  refine ⟨rfl, by decide, by decide⟩

/-- Claim C2 (counterexample): combining a raster image followed by an
unreadable PDF raises while reading the second item, and the transient
single-page PDF created for the image is still on disk afterwards — the
cleanup loop sits after the output write with no `try`/`finally`, so it
never runs on this path. -/
theorem combine_files_leaves_temp_on_failure :
    (combine_files defaultEnv combineFSNoDoc ["img.jpg".data, "doc.pdf".data]
        "combined.pdf".data).1 = .error () ∧
    fsGet (combine_files defaultEnv combineFSNoDoc ["img.jpg".data, "doc.pdf".data]
        "combined.pdf".data).2 "output_pdfs/_temp_img.jpg.pdf".data =
      some (.pdf ⟨[imagePage], false⟩) := by
  exact ⟨by decide, by decide⟩

/-- Claim C2 (amended): when `combine_files` returns successfully — every
input item processed without raising and the output write succeeded — every
transient PDF created for a raster-image input has been deleted from the
filesystem. -/
theorem combine_files_cleanup_on_success (env : Env) (fs : FS)
    (paths : List (List Char)) (name out : List Char)
    (h : (combine_files env fs paths name).1 = .ok out) :
    ∀ p ∈ paths, extOf p ∈ imageExts →
      fsGet (combine_files env fs paths name).2 (tempName env p) = none := by
  intro p hp himg
  unfold combine_files at h ⊢
  cases hcl : combineLoop env paths [] [] fs with
  | error fsE =>
    rw [hcl] at h
    simp at h
  | ok res =>
    obtain ⟨temps, pages, fs'⟩ := res
    rw [hcl] at h
    dsimp only at h ⊢
    by_cases hw : env.writeOk
    · rw [if_pos hw] at h ⊢
      exact fsGet_foldl_remove_mem _ _ _
        (combineLoop_temps_mem env paths _ _ _ _ _ _ hcl p hp himg)
    · rw [if_neg hw] at h
      simp at h

theorem combine_files_cleanup_witness :
    (combine_files defaultEnv combineFS ["img.jpg".data, "doc.pdf".data]
        "combined.pdf".data).1 = .ok "output_pdfs/combined.pdf".data ∧
    fsGet (combine_files defaultEnv combineFS ["img.jpg".data, "doc.pdf".data]
        "combined.pdf".data).2 (tempName defaultEnv "img.jpg".data) = none := by
  refine ⟨by decide, ?_⟩
  exact combine_files_cleanup_on_success defaultEnv combineFS
    ["img.jpg".data, "doc.pdf".data] "combined.pdf".data
    "output_pdfs/combined.pdf".data (by decide) "img.jpg".data (by decide) (by decide)

/-- Claim C3 (counterexample): when the output write raises during
`merge_pdfs`, a half-written file is left visible under the final output
name — the writer opens the final path directly, with no temporary path and
rename and no discard on failure. -/
theorem merge_write_failure_leaves_partial_output :
    (merge_pdfs failWriteEnv combineFS ["doc.pdf".data] "merged.pdf".data).1 = .error () ∧
    fsGet (merge_pdfs failWriteEnv combineFS ["doc.pdf".data] "merged.pdf".data).2
      "output_pdfs/merged.pdf".data = some .truncated := by
  exact ⟨by decide, by decide⟩

/-- Claim C3 (amended): the three assembly operations write the output
directly to the final path.  A failure before the write step leaves no
output under the final name (`merge_pdfs` and `fill_pdf_form` leave the
filesystem unchanged; `combine_files` leaves exactly the loop's state, which
differs from the initial one only by transient files); a failure during the
write leaves a half-written file visible under the final output name. -/
theorem assembly_writes_directly_to_final_path (env : Env) (fs : FS) :
    (∀ paths name, readAllPages fs paths = none →
      merge_pdfs env fs paths name = (.error (), fs)) ∧
    (∀ paths name pages, env.writeOk = false → readAllPages fs paths = some pages →
      fsGet (merge_pdfs env fs paths name).2 (joinPath env.outputDir name) =
        some .truncated) ∧
    (∀ tpl d name, readPdf fs tpl = none →
      fill_pdf_form env fs tpl d name = (.error (), fs)) ∧
    (∀ tpl d name doc, env.writeOk = false → readPdf fs tpl = some doc →
      fsGet (fill_pdf_form env fs tpl d name).2 (joinPath env.outputDir name) =
        some .truncated) ∧
    (∀ paths name fsE, combineLoop env paths [] [] fs = .error fsE →
      combine_files env fs paths name = (.error (), fsE)) ∧
    (∀ paths name res, env.writeOk = false → combineLoop env paths [] [] fs = .ok res →
      fsGet (combine_files env fs paths name).2 (joinPath env.outputDir name) =
        some .truncated) := by
  refine ⟨?_, ?_, ?_, ?_, ?_, ?_⟩
  · intro paths name h
    unfold merge_pdfs
    rw [h]
  · intro paths name pages hw h
    unfold merge_pdfs
    rw [h]
    simp [writeOut, hw, fsGet_fsSet_self]
  · intro tpl d name h
    unfold fill_pdf_form
    rw [h]
  · intro tpl d name doc hw h
    unfold fill_pdf_form
    rw [h]
    simp [writeOut, hw, fsGet_fsSet_self]
  · intro paths name fsE h
    unfold combine_files
    rw [h]
  · intro paths name res hw h
    obtain ⟨temps, pages, fs'⟩ := res
    unfold combine_files
    rw [h]
    simp [hw, fsGet_fsSet_self]

theorem assembly_writes_directly_witness :
    merge_pdfs defaultEnv combineFS ["missing.pdf".data] "m.pdf".data =
      (.error (), combineFS) ∧
    fsGet (merge_pdfs failWriteEnv combineFS ["doc.pdf".data] "m.pdf".data).2
      (joinPath failWriteEnv.outputDir "m.pdf".data) = some .truncated ∧
    fill_pdf_form defaultEnv combineFS "missing.pdf".data [] "f.pdf".data =
      (.error (), combineFS) ∧
    fsGet (fill_pdf_form failWriteEnv combineFS "doc.pdf".data [] "f.pdf".data).2
      (joinPath failWriteEnv.outputDir "f.pdf".data) = some .truncated ∧
    combine_files defaultEnv combineFSNoDoc ["doc.pdf".data] "c.pdf".data =
      (.error (), combineFSNoDoc) ∧
    fsGet (combine_files failWriteEnv combineFS ["doc.pdf".data] "c.pdf".data).2
      (joinPath failWriteEnv.outputDir "c.pdf".data) = some .truncated := by
  refine ⟨(assembly_writes_directly_to_final_path defaultEnv combineFS).1 _ _ (by decide),
    (assembly_writes_directly_to_final_path failWriteEnv combineFS).2.1 _ _ [⟨[]⟩]
      rfl (by decide),
    (assembly_writes_directly_to_final_path defaultEnv combineFS).2.2.1 _ _ _ (by decide),
    (assembly_writes_directly_to_final_path failWriteEnv combineFS).2.2.2.1 _ _ _
      ⟨[⟨[]⟩], false⟩ rfl (by decide),
    (assembly_writes_directly_to_final_path defaultEnv combineFSNoDoc).2.2.2.2.1 _ _ _
      (by decide),
    (assembly_writes_directly_to_final_path failWriteEnv combineFS).2.2.2.2.2 _ _
      ([], [⟨[]⟩], combineFS) rfl (by decide)⟩

/-- Claim C10 (counterexample): a record loaded from a raw mapping whose
IRP-expiry cell is a `datetime` with a time-of-day component holds that
raw `datetime` value in its date field — not a canonical date and not the
absent sentinel — so the claimed invariant fails on a successfully
constructed record. -/
theorem record_date_field_invariant_counterexample :
    (match loadEmployee c10Raw with
     | .ok e => claimedDateFieldInvariant e.irp_expiry
     | .error _ => true) = false ∧
    (match loadEmployee c10Raw with
     | .ok e => e.irp_expiry
     | .error _ => .vnone) = .vdatetime ⟨2024, 1, 2⟩ 55800 := by
  exact ⟨by decide, by decide⟩

/-- Claim C6: when some required canonical field has no alias present in
the raw mapping — `k` being the first such field in declaration order — the
loader fails with the MissingField error carrying that field's alias group;
when every required field has an alias present but the first-present alias
of some field cleans to blank/NA — `k` being the first such field — the
loader fails with the EmptyField error naming that canonical field.  In
both cases the result is an error, so no record is produced. -/
theorem field_resolution_errors (raw : RawMap) :
    (∀ k, REQUIRED_ORDER.find?
        (fun j => (firstPresent raw (fieldAliases j)).isNone) = some k →
      loadEmployee raw = .error (.missingField (fieldAliases k))) ∧
    (∀ k, REQUIRED_ORDER.all
        (fun j => (firstPresent raw (fieldAliases j)).isSome) = true →
      REQUIRED_ORDER.find?
        (fun j => isMissingB ((firstPresent raw (fieldAliases j)).getD .vnone)) = some k →
      loadEmployee raw = .error (.emptyField k)) := by
  constructor
  · intro k h
    unfold loadEmployee
    rw [resolveLoop_first_missing raw _ k h]
  · intro k hall h
    obtain ⟨data, hd⟩ :=
      resolveLoop_ok_of_present raw _ (List.all_eq_true.mp hall)
    unfold loadEmployee
    rw [hd]
    dsimp only
    have hcong : REQUIRED_ORDER.find?
        (fun j => isMissingB (getField (data ++ resolveOptional raw) j)) = some k := by
      rw [find?_congr_mem (fun j hj => by
        rw [resolveLoop_ok_getField raw _ data hd j hj (resolveOptional raw)])]
      exact h
    rw [validateLoop_first_missing _ _ _ hcong]

theorem field_resolution_errors_witness :
    loadEmployee rawNoGender = .error (.missingField (fieldAliases .gender)) ∧
    loadEmployee rawBlankTax = .error (.emptyField .tax_expiry) := by
  exact ⟨(field_resolution_errors rawNoGender).1 .gender (by decide),
    (field_resolution_errors rawBlankTax).2 .tax_expiry (by decide) (by decide)⟩

/-- Claim C4: for every raw mapping in which each of the five expiry fields
resolves to a non-blank string cell matching neither supported date format
and every required field resolves to a non-missing cleaned value, the load
succeeds and the resulting record's five parsed expiry dates are all the
absent sentinel — required-field validation checks only presence and
non-blankness, never parse success. -/
theorem load_succeeds_with_unparseable_expiries (raw : RawMap)
    (hexp : expiryKeys.all (fun k =>
      unparseableNonblankStr ((firstPresent raw (fieldAliases k)).getD .vnone)) = true)
    (hall : REQUIRED_ORDER.all (fun k =>
      (firstPresent raw (fieldAliases k)).isSome &&
      !isMissingB ((firstPresent raw (fieldAliases k)).getD .vnone)) = true) :
    (match loadEmployee raw with
     | .ok e => expiryFieldsAbsent e
     | .error _ => false) = true := by
  have hall' := List.all_eq_true.mp hall
  have hsome : ∀ j ∈ REQUIRED_ORDER, (firstPresent raw (fieldAliases j)).isSome = true :=
    fun j hj => ((Bool.and_eq_true ..).mp (hall' j hj)).1
  have hnm : ∀ j ∈ REQUIRED_ORDER,
      isMissingB ((firstPresent raw (fieldAliases j)).getD .vnone) = false := by
    intro j hj
    have h2 := ((Bool.and_eq_true ..).mp (hall' j hj)).2
    simpa using h2
  obtain ⟨data, hd⟩ := resolveLoop_ok_of_present raw _ hsome
  have hget : ∀ j ∈ REQUIRED_ORDER, getField (data ++ resolveOptional raw) j =
      (firstPresent raw (fieldAliases j)).getD .vnone :=
    fun j hj => resolveLoop_ok_getField raw _ data hd j hj _
  have hvalid : validateLoop (data ++ resolveOptional raw) REQUIRED_ORDER = .ok () :=
    validateLoop_ok_of _ _ (fun j hj => by rw [hget j hj]; exact hnm j hj)
  have hexp' := List.all_eq_true.mp hexp
  unfold loadEmployee
  rw [hd]
  dsimp only
  rw [hvalid]
  dsimp only
  simp only [expiryFieldsAbsent, mkEmployee, Bool.and_eq_true, decide_eq_true_eq]
  refine ⟨⟨⟨⟨?_, ?_⟩, ?_⟩, ?_⟩, ?_⟩ <;>
    rw [hget _ (by decide)] <;>
    exact parse_date_unparseable (hexp' _ (by decide))

theorem load_succeeds_with_unparseable_expiries_witness :
    (match loadEmployee rawBase with
     | .ok e => expiryFieldsAbsent e
     | .error _ => false) = true :=
  load_succeeds_with_unparseable_expiries rawBase (by decide) (by decide)

/-- Claim C10 (amended): after `__post_init__`, every date-typed field of
the record holds a date, a `datetime` passed through unchanged, or the
absent sentinel — never a raw string, integer or NaN — and
`penalty_points` is an integer that is at least 0, for every record the
constructor can produce. -/
theorem record_date_fields_date_like (data : List (FieldKey × PyVal)) :
    dateFieldsDateLike (mkEmployee data) = true ∧
    0 ≤ (mkEmployee data).penalty_points := by
  refine ⟨?_, coercePenalty_nonneg _⟩
  simp only [dateFieldsDateLike, mkEmployee, Bool.and_eq_true]
  exact ⟨⟨⟨⟨⟨⟨dateLike_parse_date _, dateLike_parse_date _⟩, dateLike_parse_date _⟩,
    dateLike_parse_date _⟩, dateLike_parse_date _⟩, dateLike_parse_date _⟩,
    dateLike_parse_date _⟩

end DomFD
